import Mathlib

/-
Verification of the metasim contest simulator against its specification.

The Rust sources are shallowly embedded:
* `f64` ratings and probabilities become `ℚ`; `f64::powf` (a transcendental
  operation) is abstracted as an explicit function parameter `powf`, so every
  statement quantifies over it.
* `rand::StdRng` becomes a pure value `Rng` carrying deterministic draw
  streams and a position; `StdRng::seed_from_u64` is abstracted as a function
  `rngAlg : ℕ → Rng` (any concrete generator algorithm is such a function).
* machine integers (`u8`, `u16`, `u64`, `usize`) become `ℕ`, with `% 2 ^ 64`
  where `u64` wrapping matters (`halfuuid`, `wrapping_add`).
* the potentially endless simulation loops take a fuel parameter and return
  `Option Score`; `none` means the fuel ran out mid-game.
* `BTreeMap` becomes a key-sorted association list, `HashMap` an association
  list with entry-or-insert update.
-/

namespace Metasim

/-- Abstract deterministic random generator: two draw streams (uniform
rationals for `gen::<f64>()`, indices for `gen_range(0, 9)`) and a current
position.  Both kinds of draw consume one position, modelling the shared
underlying stream of `StdRng`. -/
structure Rng where
  floats : ℕ → ℚ
  ints : ℕ → Fin 9
  pos : ℕ

/-- One `rng.gen::<f64>()` draw. -/
def Rng.genQ (r : Rng) : ℚ × Rng :=
  (r.floats r.pos, { r with pos := r.pos + 1 })

/-- One `rng.gen_range(0, 9)` draw. -/
def Rng.genRange9 (r : Rng) : Fin 9 × Rng :=
  (r.ints r.pos, { r with pos := r.pos + 1 })

/-- util.rs `fix`: `(x * (max - min) + min).max(0.0).min(1.0)` (the spec's
`rescaleClamp`). -/
def fix (x mn mx : ℚ) : ℚ :=
  min (max (x * (mx - mn) + mn) 0) 1

/-- util.rs `halfuuid`: the low 64 bits of the 128-bit uuid (bytes 8..16 of
the big-endian representation). -/
def halfuuid (id : ℕ) : ℕ :=
  id % 2 ^ 64

/-- database.rs `Player`: id, name and the 25 numeric ratings. -/
structure Player where
  id : ℕ
  name : String
  anticapitalism : ℚ
  base_thirst : ℚ
  buoyancy : ℚ
  chasiness : ℚ
  cinnamon : ℚ
  coldness : ℚ
  continuation : ℚ
  divinity : ℚ
  ground_friction : ℚ
  indulgence : ℚ
  laserlikeness : ℚ
  martyrdom : ℚ
  moxie : ℚ
  musclitude : ℚ
  omniscience : ℚ
  overpowerment : ℚ
  patheticism : ℚ
  pressurization : ℚ
  ruthlessness : ℚ
  shakespearianism : ℚ
  tenaciousness : ℚ
  thwackability : ℚ
  tragicness : ℚ
  unthwackability : ℚ
  watchfulness : ℚ
deriving DecidableEq

/-- stats.rs `Player::batting` with `powf` abstract. -/
def Player.batting (powf : ℚ → ℚ → ℚ) (p : Player) : ℚ :=
  powf (1 - p.tragicness) (1 / 100) * powf p.thwackability (35 / 100) *
    powf p.moxie (75 / 1000) * powf p.divinity (35 / 100) *
    powf p.musclitude (75 / 1000) * powf (1 - p.patheticism) (5 / 100) *
    powf p.martyrdom (2 / 100)

/-- stats.rs `Player::pitching` with `powf` abstract. -/
def Player.pitching (powf : ℚ → ℚ → ℚ) (p : Player) : ℚ :=
  powf p.shakespearianism (1 / 10) * powf p.unthwackability (1 / 2) *
    powf p.coldness (25 / 1000) * powf p.overpowerment (15 / 100) *
    powf p.ruthlessness (4 / 10)

/-- stats.rs `Player::baserunning` with `powf` abstract. -/
def Player.baserunning (powf : ℚ → ℚ → ℚ) (p : Player) : ℚ :=
  powf p.laserlikeness (1 / 2) * powf p.continuation (1 / 10) *
    powf p.base_thirst (1 / 10) * powf p.indulgence (1 / 10) *
    powf p.ground_friction (1 / 10)

/-- stats.rs `Player::defense` with `powf` abstract. -/
def Player.defense (powf : ℚ → ℚ → ℚ) (p : Player) : ℚ :=
  powf p.omniscience (1 / 5) * powf p.tenaciousness (1 / 5) *
    powf p.watchfulness (1 / 10) * powf p.anticapitalism (1 / 10) *
    powf p.chasiness (1 / 10)

/-- stats.rs `Player::vibe_check`.  `current_vibe` involves `sin`, so the
vibe value is taken as the parameter `vibe`; the function then performs
exactly the mutations of the source: `adj = vibe / 5`, a power transform of
`tragicness` with exponent `fix (|adj|) 1 3` (reciprocal when `adj` is
negative), `+= adj` on every other rating except `patheticism`, which gets
`-= adj`. -/
def Player.vibe_check (p : Player) (powf : ℚ → ℚ → ℚ) (vibe : ℚ) : Player :=
  let adj := vibe / 5
  let pw := fix |adj| 1 3
  { p with
    tragicness := if adj < 0 then powf p.tragicness pw⁻¹ else powf p.tragicness pw
    anticapitalism := p.anticapitalism + adj
    base_thirst := p.base_thirst + adj
    buoyancy := p.buoyancy + adj
    chasiness := p.chasiness + adj
    cinnamon := p.cinnamon + adj
    coldness := p.coldness + adj
    continuation := p.continuation + adj
    divinity := p.divinity + adj
    ground_friction := p.ground_friction + adj
    indulgence := p.indulgence + adj
    laserlikeness := p.laserlikeness + adj
    martyrdom := p.martyrdom + adj
    moxie := p.moxie + adj
    musclitude := p.musclitude + adj
    omniscience := p.omniscience + adj
    overpowerment := p.overpowerment + adj
    patheticism := p.patheticism - adj
    pressurization := p.pressurization + adj
    ruthlessness := p.ruthlessness + adj
    shakespearianism := p.shakespearianism + adj
    tenaciousness := p.tenaciousness + adj
    thwackability := p.thwackability + adj
    unthwackability := p.unthwackability + adj
    watchfulness := p.watchfulness + adj }

/-- util.rs `AwayHome`. -/
structure AwayHome (T : Type) where
  away : T
  home : T
deriving DecidableEq

/-- game.rs `Score`: inning counter, half flag and per-side run totals. -/
structure Score where
  inning : ℕ
  bottom : Bool
  score : AwayHome ℕ
deriving DecidableEq

/-- game.rs base slots `[Option<&Player>; 3]`; `first` is index 0. -/
structure Bases where
  first : Option Player
  second : Option Player
  third : Option Player
deriving DecidableEq

/-- The empty base configuration `[None; 3]`. -/
def Bases.empty : Bases :=
  { first := none, second := none, third := none }

/-- Write slot `n` (0, 1 or 2) of the bases; indices outside 0..2 never occur
in the source (`new_bases[new_base]` is only reached for `new_base < 3`). -/
def Bases.setNth (b : Bases) (n : ℕ) (v : Option Player) : Bases :=
  match n with
  | 0 => { b with first := v }
  | 1 => { b with second := v }
  | 2 => { b with third := v }
  | _ => b

/-- game.rs `state.bases.iter().any(Option::is_some)`. -/
def Bases.anyOccupied (b : Bases) : Bool :=
  b.first.isSome || b.second.isSome || b.third.isSome

/-- The runners currently on base, in base order. -/
def Bases.runners (b : Bases) : List Player :=
  [b.first, b.second, b.third].filterMap id

/-- Number of occupied bases. -/
def Bases.occupiedCount (b : Bases) : ℕ :=
  b.runners.length

/-- game.rs `State`: score, bases and per-side next-batter position. -/
structure State where
  score : Score
  bases : Bases
  position : AwayHome (Fin 9)
deriving DecidableEq

/-- game.rs `State::default()`. -/
def State.start : State :=
  { score := { inning := 0, bottom := false, score := { away := 0, home := 0 } }
    bases := Bases.empty
    position := { away := 0, home := 0 } }

/-- game.rs `State::is_top`. -/
def State.is_top (st : State) : Bool :=
  !st.score.bottom

/-- game.rs `State::is_bottom`. -/
def State.is_bottom (st : State) : Bool :=
  st.score.bottom

/-- game.rs `State::is_complete`. -/
def State.is_complete (st : State) : Bool :=
  if 8 ≤ st.score.inning then
    if st.is_top && decide (st.score.score.home > st.score.score.away) then true
    else decide (st.score.score.away ≠ st.score.score.home)
  else false

/-- game.rs `State::hitting`. -/
def State.hitting {T : Type} (st : State) (x : AwayHome T) : T :=
  if st.is_top then x.away else x.home

/-- game.rs `State::fielding`. -/
def State.fielding {T : Type} (st : State) (x : AwayHome T) : T :=
  if st.is_bottom then x.away else x.home

/-- game.rs `State::batter`. -/
def State.batter (st : State) (lineups : AwayHome (Fin 9 → Player)) : Player :=
  st.hitting lineups (st.hitting st.position)

/-- game.rs `State::next_batter`; `Fin 9` addition is `(position + 1) % 9`. -/
def State.next_batter (st : State) : State :=
  if st.is_top then { st with position.away := st.position.away + 1 }
  else { st with position.home := st.position.home + 1 }

/-- game.rs `State::next_half_inning`. -/
def State.next_half_inning (st : State) : State :=
  let st2 := { st with bases := Bases.empty }
  if st2.score.bottom then
    { st2 with score.bottom := false, score.inning := st2.score.inning + 1 }
  else
    { st2 with score.bottom := true }

/-- game.rs `State::score` (one run for the hitting side); named `scoreRun`
here because `score` is already the field name. -/
def State.scoreRun (st : State) : State :=
  if st.is_top then { st with score.score.away := st.score.score.away + 1 }
  else { st with score.score.home := st.score.score.home + 1 }

/-- `for _ in 0..n { self.score() }`. -/
def State.scoreRuns (st : State) : ℕ → State
  | 0 => st
  | n + 1 => (st.scoreRuns n).scoreRun

/-- game.rs `State::walk`: the swap loop unrolled over the three fixed base
slots; the batter takes first, each runner is pushed one base exactly while
the chain of occupied bases behind them is unbroken, and a runner pushed off
third scores. -/
def State.walk (st : State) (batter : Player) : State :=
  match st.bases.first with
  | none => { st with bases.first := some batter }
  | some p1 =>
    match st.bases.second with
    | none => { st with bases.first := some batter, bases.second := some p1 }
    | some p2 =>
      match st.bases.third with
      | none =>
        { st with
          bases.first := some batter
          bases.second := some p1
          bases.third := some p2 }
      | some _ =>
        State.scoreRun
          { st with
            bases.first := some batter
            bases.second := some p1
            bases.third := some p2 }

/-- Accumulator of the loop in game.rs `State::advance`: `in_front`, the runs
scored so far, `new_bases` and the generator. -/
structure AdvAcc where
  in_front : ℕ
  runs : ℕ
  new_bases : Bases
  rng : Rng

/-- One iteration of the loop in game.rs `State::advance`, for base index `i`
holding `slot`. -/
def State.advStep (powf : ℚ → ℚ → ℚ) (mn : ℕ) (i : ℕ) (slot : Option Player)
    (acc : AdvAcc) : AdvAcc :=
  match slot with
  | none => acc
  | some runner =>
    let rolled : Bool × Rng :=
      if mn < acc.in_front then
        let pr := acc.rng.genQ
        (decide (pr.1 < fix (Player.baserunning powf runner) 0 (1 / 2)), pr.2)
      else (false, acc.rng)
    let inf2 := if rolled.1 then mn + 1 else mn
    let nb := i + inf2
    if 3 ≤ nb then
      { in_front := inf2
        runs := acc.runs + 1
        new_bases := acc.new_bases
        rng := rolled.2 }
    else
      { in_front := inf2
        runs := acc.runs
        new_bases := acc.new_bases.setNth nb (some runner)
        rng := rolled.2 }

/-- game.rs `State::advance`: `bases.iter_mut().enumerate().rev()` visits
third (index 2), then second (1), then first (0). -/
def State.advance (powf : ℚ → ℚ → ℚ) (mn mx : ℕ) (st : State) (rng : Rng) :
    State × Rng :=
  let a0 : AdvAcc :=
    { in_front := mx, runs := 0, new_bases := Bases.empty, rng := rng }
  let a1 := State.advStep powf mn 2 st.bases.third a0
  let a2 := State.advStep powf mn 1 st.bases.second a1
  let a3 := State.advStep powf mn 0 st.bases.first a2
  ({ st.scoreRuns a3.runs with bases := a3.new_bases }, a3.rng)

/-- One runner of the spec's advance rule (§4.5), written from the spec's
words: when the runner's `inFront` exceeds `min`, roll one extra-base
Bernoulli and advance by `max` if it triggers, else by `min`; nearer runners
see the chosen advance as their `inFront`; a resulting index reaching home
(3) scores. -/
def advanceRuleStep (powf : ℚ → ℚ → ℚ) (mn mx : ℕ) (acc : AdvAcc)
    (pair : ℕ × Option Player) : AdvAcc :=
  match pair.2 with
  | none => acc
  | some runner =>
    let rolled : Bool × Rng :=
      if mn < acc.in_front then
        let pr := acc.rng.genQ
        (decide (pr.1 < fix (Player.baserunning powf runner) 0 (1 / 2)), pr.2)
      else (false, acc.rng)
    let inf2 := if rolled.1 then mx else mn
    let nb := pair.1 + inf2
    if 3 ≤ nb then
      { in_front := inf2
        runs := acc.runs + 1
        new_bases := acc.new_bases
        rng := rolled.2 }
    else
      { in_front := inf2
        runs := acc.runs
        new_bases := acc.new_bases.setNth nb (some runner)
        rng := rolled.2 }

/-- The spec's advance rule (§4.5): process the occupied bases from
farthest-from-home to nearest, as a fold over the three slots. -/
def State.advanceRule (powf : ℚ → ℚ → ℚ) (mn mx : ℕ) (st : State)
    (rng : Rng) : State × Rng :=
  let a :=
    [((2 : ℕ), st.bases.third), (1, st.bases.second), (0, st.bases.first)].foldl
      (advanceRuleStep powf mn mx)
      { in_front := mx, runs := 0, new_bases := Bases.empty, rng := rng }
  ({ st.scoreRuns a.runs with bases := a.new_bases }, a.rng)

/-- game.rs line 177/198: `*state.bases.iter_mut().rev().next().unwrap() =
None` — unconditionally clears the last slot (third base), occupied or not. -/
def State.removeHighestBase (st : State) : State :=
  { st with bases.third := none }

/-- The double-play branch of the `Pitch::Out` arm (after the trigger roll):
clear the last base slot, then advance the remaining runners with
(min, max) = (0, 1). -/
def State.doublePlayMove (powf : ℚ → ℚ → ℚ) (st : State) (rng : Rng) :
    State × Rng :=
  State.advance powf 0 1 st.removeHighestBase rng

/-- The fielder's-choice branch of the `Pitch::Out` arm (after the trigger
roll): clear the last base slot, advance the remaining runners with
(min, max) = (1, 1), put the batter on first. -/
def State.fieldersChoiceMove (powf : ℚ → ℚ → ℚ) (batter : Player)
    (st : State) (rng : Rng) : State × Rng :=
  let a := State.advance powf 1 1 st.removeHighestBase rng
  ({ a.1 with bases.first := some batter }, a.2)

/-- pitch.rs `Pitch`. -/
inductive Pitch where
  | Ball
  | Strike
  | Foul
  | Out
  | Single
  | Double
  | Triple
  | Dinger
deriving DecidableEq

/-- Modelled from the spec: the four-argument `Pitch::simulate(pitcher,
batter, defense, rng)` that game.rs calls is not in the tree — the `pitch.rs`
present is a superseded snapshot whose three-argument `simulate` draws from
the process-global `thread_rng`.  The probability formulas and the draw order
below are those of that snapshot (identical to spec §4.4); the generator is
the injected one of §4.5/§9, threaded through every draw. -/
def Pitch.simulate (powf : ℚ → ℚ → ℚ) (pitcher batter : Player)
    (def9 : Fin 9 → Player) (rng : Rng) : Pitch × Rng :=
  let d1 := rng.genQ
  let in_strike_zone : Bool :=
    decide (d1.1 <
      (fix (1 - batter.moxie) (2 / 10) (8 / 10) +
        fix (Player.pitching powf pitcher) 0 1) / 2)
  let d2 := d1.2.genQ
  let batter_swings : Bool :=
    decide (d2.1 <
      (if in_strike_zone then 8 / 10 else (2 : ℚ) / 10) +
        fix pitcher.shakespearianism 0 (15 / 100))
  if !batter_swings then
    (if in_strike_zone then Pitch.Strike else Pitch.Ball, d2.2)
  else
    let d3 := d2.2.genQ
    let batter_hits : Bool :=
      decide (d3.1 <
        (if in_strike_zone then 8 / 10 else (1 : ℚ) / 10) -
          fix batter.patheticism 0 (15 / 100) +
          fix batter.thwackability 0 (4 / 10) -
          fix pitcher.unthwackability 0 (4 / 10))
    if !batter_hits then (Pitch.Strike, d3.2)
    else
      let d4 := d3.2.genQ
      if d4.1 < (4 : ℚ) / 10 then (Pitch.Foul, d4.2)
      else
        let d5 := d4.2.genQ
        if d5.1 < fix batter.divinity 0 (6 / 100) then (Pitch.Dinger, d5.2)
        else
          let d6 := d5.2.genRange9
          let defender := def9 d6.1
          let d7 := d6.2.genQ
          if d7.1 < fix (Player.defense powf defender) (2 / 10) (6 / 10) +
              fix batter.thwackability 0 (2 / 10) then
            (Pitch.Out, d7.2)
          else
            let d8 := d7.2.genQ
            if d8.1 < 1 - fix batter.musclitude (2 / 10) (4 / 10) then
              (Pitch.Single, d8.2)
            else
              let d9 := d8.2.genQ
              if d9.1 < fix batter.ground_friction (1 / 10) (4 / 10) then
                (Pitch.Triple, d9.2)
              else (Pitch.Double, d9.2)

/-- game.rs `Playable`: a contest resolved to two lineups and two starting
pitchers. -/
structure Playable where
  id : ℕ
  season : ℕ
  day : ℕ
  lineups : AwayHome (Fin 9 → Player)
  pitchers : AwayHome Player

/-- The loop nest of game.rs `Playable::simulate`, with one unit of fuel
consumed per pitch.  `outs`, `balls` and `strikes` are the mutable loop
locals.  The pitcher, defense and batter are recomputed here each pitch;
within a half-inning (resp. plate appearance) they agree with the source's
per-half-inning (resp. per-batter) bindings because `fielding` depends only
on the half flag and `batter` only on the half flag and position, neither of
which changes mid-loop.  The continuation `paEnd` is the code after `break`:
next batter, then either the next at-bat, or — at three outs — the next half
inning guarded by the `while !state.is_complete()` check. -/
def simGo (powf : ℚ → ℚ → ℚ) (lineups : AwayHome (Fin 9 → Player))
    (pitchers : AwayHome Player) :
    ℕ → ℕ → ℕ → ℕ → State → Rng → Option Score
  | 0, _, _, _, _, _ => none
  | fuel + 1, outs, balls, strikes, st, rng =>
    let paEnd : ℕ → State → Rng → Option Score := fun outs2 st2 rng2 =>
      let st3 := st2.next_batter
      if outs2 < 3 then simGo powf lineups pitchers fuel outs2 0 0 st3 rng2
      else
        let st4 := st3.next_half_inning
        if st4.is_complete then some st4.score
        else simGo powf lineups pitchers fuel 0 0 0 st4 rng2
    let pitcher := st.fielding pitchers
    let def9 := st.fielding lineups
    let batter := st.batter lineups
    let pr := Pitch.simulate powf pitcher batter def9 rng
    match pr.1 with
    | Pitch.Ball =>
      if balls + 1 = 4 then paEnd outs (st.walk batter) pr.2
      else simGo powf lineups pitchers fuel outs (balls + 1) strikes st pr.2
    | Pitch.Strike =>
      if strikes + 1 = 3 then paEnd (outs + 1) st pr.2
      else simGo powf lineups pitchers fuel outs balls (strikes + 1) st pr.2
    | Pitch.Foul =>
      if strikes < 2 then
        simGo powf lineups pitchers fuel outs balls (strikes + 1) st pr.2
      else simGo powf lineups pitchers fuel outs balls strikes st pr.2
    | Pitch.Out =>
      if st.bases.anyOccupied then
        let i1 := pr.2.genRange9
        let firstDefender := def9 i1.1
        let i2 := i1.2.genRange9
        let secondDefender := def9 i2.1
        let r1 := i2.2.genQ
        if r1.1 < fix (Player.defense powf firstDefender) 0 (75 / 1000) +
            fix (Player.defense powf secondDefender) 0 (75 / 1000) then
          let m := State.doublePlayMove powf st r1.2
          paEnd (outs + 1 + 1) m.1 m.2
        else
          let r2 := r1.2.genQ
          if r2.1 < fix (Player.defense powf firstDefender) 0 (75 / 100) then
            let m := State.fieldersChoiceMove powf batter st r2.2
            paEnd (outs + 1 + 1) m.1 m.2
          else paEnd (outs + 1) st r2.2
      else paEnd (outs + 1) st pr.2
    | Pitch.Single =>
      let m := State.advance powf 1 2 st pr.2
      paEnd outs { m.1 with bases.first := some batter } m.2
    | Pitch.Double =>
      let m := State.advance powf 2 3 st pr.2
      paEnd outs { m.1 with bases.second := some batter } m.2
    | Pitch.Triple =>
      let m := State.advance powf 3 3 st pr.2
      paEnd outs { m.1 with bases.third := some batter } m.2
    | Pitch.Dinger =>
      let m := State.advance powf 3 3 st pr.2
      paEnd outs m.1 m.2

/-- game.rs `Playable::simulate`: seed the private generator from
`halfuuid(self.id).wrapping_add(seed)` (the generator algorithm
`StdRng::seed_from_u64` is the abstract parameter `rngAlg`), start from the
default state, and run the loop nest on the given fuel. -/
def Playable.simulate (powf : ℚ → ℚ → ℚ) (rngAlg : ℕ → Rng) (p : Playable)
    (seed : ℕ) (fuel : ℕ) : Option Score :=
  let rng := rngAlg ((halfuuid p.id + seed) % 2 ^ 64)
  let st := State.start
  if st.is_complete then some st.score
  else simGo powf p.lineups p.pitchers fuel 0 0 0 st rng

section HistoryDefs

variable {T : Type} [DecidableEq T]

/-- history.rs `History::dedup`, first loop: collect the keys of the records
whose value equals the previously retained value (`prev`). -/
def History.removeList : Option T → List (ℕ × T) → List ℕ
  | _, [] => []
  | prev, (k, v) :: rest =>
    if prev = some v then k :: History.removeList prev rest
    else History.removeList (some v) rest

/-- `BTreeMap::remove(&k)` on a distinct-key association list. -/
def History.eraseKey (l : List (ℕ × T)) (k : ℕ) : List (ℕ × T) :=
  l.filter fun kv => decide (kv.1 ≠ k)

/-- history.rs `History::dedup`: collect the keys to remove, then remove each
one. -/
def History.dedup (l : List (ℕ × T)) : List (ℕ × T) :=
  (History.removeList none l).foldl History.eraseKey l

/-- The spec's description of `dedup` (§4.1), written from its words: scan in
order, drop a record whose value equals the immediately preceding retained
value, keep the first record of each run. -/
def History.dedupKeepFirst : Option T → List (ℕ × T) → List (ℕ × T)
  | _, [] => []
  | prev, (k, v) :: rest =>
    if prev = some v then History.dedupKeepFirst prev rest
    else (k, v) :: History.dedupKeepFirst (some v) rest

/-- `BTreeMap::insert` on a key-sorted association list: insert or overwrite
at the exact key. -/
def btInsert (k : ℕ) (v : T) : List (ℕ × T) → List (ℕ × T)
  | [] => [(k, v)]
  | (k2, v2) :: rest =>
    if k < k2 then (k, v) :: (k2, v2) :: rest
    else if k = k2 then (k, v) :: rest
    else (k2, v2) :: btInsert k v rest

/-- `map.entry(id).or_default()` followed by `History::insert(ts, v)`, on a
`HashMap` modelled as an association list. -/
def entryInsert (m : List (ℕ × List (ℕ × T))) (id : ℕ) (ts : ℕ) (v : T) :
    List (ℕ × List (ℕ × T)) :=
  match m with
  | [] => [(id, btInsert ts v [])]
  | (id2, h) :: rest =>
    if id = id2 then (id2, btInsert ts v h) :: rest
    else (id2, h) :: entryInsert rest id ts v

end HistoryDefs

/-- database.rs `Team`. -/
structure Team where
  id : ℕ
  nickname : String
  lineup : List ℕ
  rotation : List ℕ
deriving DecidableEq

/-- database.rs `Meta` (the `clientMeta` field). -/
structure Meta where
  timestamp : ℕ
deriving DecidableEq

/-- database.rs `InputLine`: the tagged records of the ingestion format; the
two ignored tags carry `IgnoredAny` payloads, dropped here. -/
inductive InputLine where
  | allTeams (data : List Team) (meta : Meta)
  | players (data : List Player) (meta : Meta)
  | globalEvents
  | offseasonSetup

/-- database.rs `Database`. -/
structure Database where
  teams : List (ℕ × List (ℕ × Team))
  players : List (ℕ × List (ℕ × Player))

/-- The empty database `load` starts from. -/
def Database.empty : Database :=
  { teams := [], players := [] }

/-- The match arms of the ingestion loop in database.rs `Database::load`: a
teams or players batch inserts every snapshot at the batch timestamp; any
other tag does nothing. -/
def Database.applyLine (db : Database) : InputLine → Database
  | .allTeams data meta =>
    { db with
      teams := data.foldl
        (fun acc team => entryInsert acc team.id meta.timestamp team)
        db.teams }
  | .players data meta =>
    { db with
      players := data.foldl
        (fun acc player => entryInsert acc player.id meta.timestamp player)
        db.players }
  | .globalEvents => db
  | .offseasonSetup => db

/-- The inner ingestion loop of `Database::load` over one file's deserialized
line stream: `line?` propagates the first parse error, aborting the load. -/
def Database.ingest {E : Type} (db : Database) :
    List (Except E InputLine) → Except E Database
  | [] => .ok db
  | .error e :: _ => .error e
  | .ok line :: rest => Database.ingest (db.applyLine line) rest

/-- The outer ingestion loop of `Database::load` over the directory's
files. -/
def Database.loadGo {E : Type} (db : Database) :
    List (List (Except E InputLine)) → Except E Database
  | [] => .ok db
  | f :: fs =>
    match Database.ingest db f with
    | .error e => .error e
    | .ok db2 => Database.loadGo db2 fs

/-- Step 6 of `Database::load`: `dedup` every entity's history once. -/
def Database.dedupAll (db : Database) : Database :=
  { teams := db.teams.map fun p => (p.1, History.dedup p.2)
    players := db.players.map fun p => (p.1, History.dedup p.2) }

/-- database.rs `Database::load`, ingestion path (steps 4-6): the cache probe
and the best-effort cache write are file-system effects outside the model;
a parse error anywhere aborts the whole load. -/
def Database.load {E : Type} (files : List (List (Except E InputLine))) :
    Except E Database :=
  match Database.loadGo Database.empty files with
  | .error e => .error e
  | .ok db => .ok db.dedupAll

/-! Concrete inputs used by witnesses and counterexamples. -/

/-- A concrete stand-in for `f64::powf` that always returns 1. -/
def pow1 : ℚ → ℚ → ℚ := fun _ _ => 1

/-- A concrete stand-in for `f64::powf` that returns its base. -/
def powId : ℚ → ℚ → ℚ := fun x _ => x

/-- A concrete generator whose draws are all 0. -/
def rng0 : Rng :=
  { floats := fun _ => 0, ints := fun _ => 0, pos := 0 }

/-- A concrete generator algorithm: every seed yields the all-zero stream
positioned at the seed. -/
def rngAlg0 : ℕ → Rng :=
  fun n => { floats := fun _ => 0, ints := fun _ => 0, pos := n }

/-- A concrete player with the given id and all ratings 0. -/
def mkTestPlayer (n : ℕ) : Player :=
  { id := n
    name := ""
    anticapitalism := 0
    base_thirst := 0
    buoyancy := 0
    chasiness := 0
    cinnamon := 0
    coldness := 0
    continuation := 0
    divinity := 0
    ground_friction := 0
    indulgence := 0
    laserlikeness := 0
    martyrdom := 0
    moxie := 0
    musclitude := 0
    omniscience := 0
    overpowerment := 0
    patheticism := 0
    pressurization := 0
    ruthlessness := 0
    shakespearianism := 0
    tenaciousness := 0
    thwackability := 0
    tragicness := 0
    unthwackability := 0
    watchfulness := 0 }

/-- A state with a single runner, on first base. -/
def stFirstOnly : State :=
  { State.start with bases.first := some (mkTestPlayer 1) }

/-- A tied state in the ninth inning. -/
def stTied9 : State :=
  { State.start with score.inning := 8 }

/-- A top-of-the-ninth state with the home side ahead 0-1. -/
def stHomeAhead9 : State :=
  { State.start with score.inning := 8, score.score.home := 1 }

/-- A shared concrete lineup pair for the determinism witness. -/
def lineups0 : AwayHome (Fin 9 → Player) :=
  { away := fun _ => mkTestPlayer 3, home := fun _ => mkTestPlayer 4 }

/-- A shared concrete pitcher pair for the determinism witness. -/
def pitchers0 : AwayHome Player :=
  { away := mkTestPlayer 5, home := mkTestPlayer 6 }

/-- A concrete playable whose contest id has high bits set. -/
def playableHigh : Playable :=
  { id := 2 ^ 64 + 7
    season := 3
    day := 10
    lineups := lineups0
    pitchers := pitchers0 }

/-- A concrete playable with the same low 64 id bits, lineups and pitchers
as `playableHigh` but a different id, season and day. -/
def playableLow : Playable :=
  { id := 7
    season := 4
    day := 11
    lineups := lineups0
    pitchers := pitchers0 }

/-! Theorems. -/

/-- C4: between plate appearances the game is terminal exactly when the
inning counter is at least 8 and either (top half and home ahead) or the
scores are unequal; a tie is never terminal. -/
theorem c4_is_complete_spec (st : State) :
    (st.is_complete = true ↔
      (8 ≤ st.score.inning ∧
        ((st.score.bottom = false ∧
            st.score.score.away < st.score.score.home) ∨
          st.score.score.away ≠ st.score.score.home)))
  ∧ (st.score.score.away = st.score.score.home → st.is_complete = false) := by
  rcases st with ⟨⟨inning, bottom, ⟨a, h⟩⟩, b, pos⟩
  constructor
  · cases bottom <;>
      simp only [State.is_complete, State.is_top, Bool.not_false, Bool.not_true,
        Bool.false_and, Bool.true_and] <;>
      split_ifs <;> simp_all
  · intro he
    replace he : a = h := he
    subst he
    cases bottom <;> simp [State.is_complete, State.is_top]

/-- Witness for C4 at a concrete tied ninth-inning state. -/
theorem c4_witness : stTied9.is_complete = false :=
  (c4_is_complete_spec stTied9).2 rfl

/-- C5: a walk puts the batter on first; an existing runner moves up exactly
one base iff every base from first through the runner's base is occupied; a
run scores exactly when the bases were loaded.  The two quoted examples are
included at concrete players. -/
theorem c5_walk_spec :
    (∀ (st : State) (batter : Player),
      (st.walk batter).bases.first = some batter
      ∧ (st.walk batter).bases.second =
          (if st.bases.first.isSome then st.bases.first else st.bases.second)
      ∧ (st.walk batter).bases.third =
          (if st.bases.first.isSome && st.bases.second.isSome then
            st.bases.second
          else st.bases.third)
      ∧ (st.walk batter).score =
          (if st.bases.first.isSome && st.bases.second.isSome &&
              st.bases.third.isSome then
            st.scoreRun.score
          else st.score)
      ∧ (st.walk batter).position = st.position)
  ∧ State.walk { State.start with bases.second := some (mkTestPlayer 11) }
        (mkTestPlayer 10) =
      { State.start with
        bases.first := some (mkTestPlayer 10)
        bases.second := some (mkTestPlayer 11) }
  ∧ State.walk
        { State.start with
          bases := ⟨some (mkTestPlayer 12), some (mkTestPlayer 11),
            some (mkTestPlayer 13)⟩ } (mkTestPlayer 10) =
      { State.start with
        bases := ⟨some (mkTestPlayer 10), some (mkTestPlayer 12),
          some (mkTestPlayer 11)⟩
        score.score.away := 1 } := by
  refine ⟨fun st batter => ?_, by decide, by decide⟩
  rcases st with ⟨sc, ⟨b0, b1, b2⟩, pos⟩
  cases b0 <;> cases b1 <;> cases b2 <;>
    simp [State.walk, State.scoreRun, State.is_top] <;>
    split_ifs <;> simp_all

/-- Helper for C2: `advance(3, 3)` scores exactly the runners on base,
empties the bases and leaves the generator untouched. -/
theorem advance33_scores_runners (powf : ℚ → ℚ → ℚ) (st : State)
    (rng : Rng) :
    State.advance powf 3 3 st rng =
      ({ st.scoreRuns st.bases.occupiedCount with bases := Bases.empty },
        rng) := by
  rcases st with ⟨sc, ⟨b0, b1, b2⟩, pos⟩
  cases b0 <;> cases b1 <;> cases b2 <;>
    simp [State.advance, State.advStep, Bases.occupiedCount, Bases.runners,
      State.scoreRuns]

/-- C2 (code evaluation): the entire `Pitch::Dinger` transition is
`advance(3, 3)`, which scores exactly the runners on base — the batter's own
run is never added (the batter's scoring exists only as a trace line in the
source), so the play scores `occupiedCount` runs, not `occupiedCount + 1`;
at the failing input (home run with empty bases) the state is completely
unchanged, 0 runs instead of 1. -/
theorem c2_dinger_scores_runners_only :
    (∀ (powf : ℚ → ℚ → ℚ) (st : State) (rng : Rng),
      State.advance powf 3 3 st rng =
        ({ st.scoreRuns st.bases.occupiedCount with bases := Bases.empty },
          rng))
  ∧ State.advance pow1 3 3 State.start rng0 = (State.start, rng0) :=
  ⟨advance33_scores_runners, rfl⟩

/-- C10: the day adjustment leaves tragicness unchanged — the exponent
`fix |adj| 1 3 = clamp(2|adj| + 1, 0, 1)` is exactly 1 (as is its
reciprocal), and raising to the power 1 is the identity; every other rating
gains `adj` except patheticism, which loses `adj`. -/
theorem c10_vibe_check_tragicness (powf : ℚ → ℚ → ℚ)
    (hpow : ∀ x : ℚ, powf x 1 = x) (vibe : ℚ) (p : Player) :
    (∀ a : ℚ, fix |a| 1 3 = 1)
  ∧ (p.vibe_check powf vibe).tragicness = p.tragicness
  ∧ (p.vibe_check powf vibe).anticapitalism = p.anticapitalism + vibe / 5
  ∧ (p.vibe_check powf vibe).base_thirst = p.base_thirst + vibe / 5
  ∧ (p.vibe_check powf vibe).buoyancy = p.buoyancy + vibe / 5
  ∧ (p.vibe_check powf vibe).chasiness = p.chasiness + vibe / 5
  ∧ (p.vibe_check powf vibe).cinnamon = p.cinnamon + vibe / 5
  ∧ (p.vibe_check powf vibe).coldness = p.coldness + vibe / 5
  ∧ (p.vibe_check powf vibe).continuation = p.continuation + vibe / 5
  ∧ (p.vibe_check powf vibe).divinity = p.divinity + vibe / 5
  ∧ (p.vibe_check powf vibe).ground_friction = p.ground_friction + vibe / 5
  ∧ (p.vibe_check powf vibe).indulgence = p.indulgence + vibe / 5
  ∧ (p.vibe_check powf vibe).laserlikeness = p.laserlikeness + vibe / 5
  ∧ (p.vibe_check powf vibe).martyrdom = p.martyrdom + vibe / 5
  ∧ (p.vibe_check powf vibe).moxie = p.moxie + vibe / 5
  ∧ (p.vibe_check powf vibe).musclitude = p.musclitude + vibe / 5
  ∧ (p.vibe_check powf vibe).omniscience = p.omniscience + vibe / 5
  ∧ (p.vibe_check powf vibe).overpowerment = p.overpowerment + vibe / 5
  ∧ (p.vibe_check powf vibe).patheticism = p.patheticism - vibe / 5
  ∧ (p.vibe_check powf vibe).pressurization = p.pressurization + vibe / 5
  ∧ (p.vibe_check powf vibe).ruthlessness = p.ruthlessness + vibe / 5
  ∧ (p.vibe_check powf vibe).shakespearianism = p.shakespearianism + vibe / 5
  ∧ (p.vibe_check powf vibe).tenaciousness = p.tenaciousness + vibe / 5
  ∧ (p.vibe_check powf vibe).thwackability = p.thwackability + vibe / 5
  ∧ (p.vibe_check powf vibe).unthwackability = p.unthwackability + vibe / 5
  ∧ (p.vibe_check powf vibe).watchfulness = p.watchfulness + vibe / 5 := by
  have hfix : ∀ a : ℚ, fix |a| 1 3 = 1 := by
    intro a
    have h0 : 0 ≤ |a| := abs_nonneg a
    unfold fix
    rw [(by norm_num : (3 : ℚ) - 1 = 2)]
    rw [max_eq_left (by linarith), min_eq_right (by linarith)]
  refine ⟨hfix, ?_, ?_, ?_, ?_, ?_, ?_, ?_, ?_, ?_, ?_, ?_, ?_, ?_, ?_, ?_,
    ?_, ?_, ?_, ?_, ?_, ?_, ?_, ?_, ?_, ?_⟩ <;>
    simp [Player.vibe_check, hfix, hpow]

/-- Witness for C10 at a concrete power function, vibe and player. -/
theorem c10_witness :
    (Player.vibe_check (mkTestPlayer 0) powId 1).tragicness =
      (mkTestPlayer 0).tragicness :=
  (c10_vibe_check_tragicness powId (fun _ => rfl) 1 (mkTestPlayer 0)).2.1

/-- C1: `simulate` is a pure function of its inputs — two calls on identical
inputs agree — and its value depends on the playable only through the stable
hash `halfuuid(id) wrapping_add seed` of the contest id together with the
lineups and pitchers, every draw coming from the injected generator built
from that hash. -/
theorem c1_simulate_deterministic :
    (∀ (powf : ℚ → ℚ → ℚ) (rngAlg : ℕ → Rng) (p : Playable) (seed fuel : ℕ),
      Playable.simulate powf rngAlg p seed fuel =
        Playable.simulate powf rngAlg p seed fuel)
  ∧ (∀ (powf : ℚ → ℚ → ℚ) (rngAlg : ℕ → Rng) (p1 p2 : Playable)
      (seed fuel : ℕ),
      (halfuuid p1.id + seed) % 2 ^ 64 = (halfuuid p2.id + seed) % 2 ^ 64 →
      p1.lineups = p2.lineups → p1.pitchers = p2.pitchers →
      Playable.simulate powf rngAlg p1 seed fuel =
        Playable.simulate powf rngAlg p2 seed fuel) := by
  refine ⟨fun _ _ _ _ _ => rfl, ?_⟩
  intro powf rngAlg p1 p2 seed fuel h1 h2 h3
  simp only [Playable.simulate]
  rw [h1, h2, h3]

/-- Witness for C1: two playables differing in id, season and day but
agreeing on the low 64 id bits and the rosters simulate identically. -/
theorem c1_witness :
    Playable.simulate pow1 rngAlg0 playableHigh 42 3 =
      Playable.simulate pow1 rngAlg0 playableLow 42 3 :=
  c1_simulate_deterministic.2 pow1 rngAlg0 playableHigh playableLow 42 3
    (by decide) rfl rfl

/-- C3 counterexample: with only first base occupied, the double-play branch
removes nobody — the lone runner (the occupied base closest to home) is
still on base afterwards — and the fielder's-choice branch likewise keeps
the runner, merely adding the batter; no runner is removed. -/
theorem c3_counterexample :
    (State.doublePlayMove pow1 stFirstOnly rng0).1.bases.runners =
      [mkTestPlayer 1]
  ∧ (State.fieldersChoiceMove pow1 (mkTestPlayer 2) stFirstOnly
        rng0).1.bases.runners = [mkTestPlayer 2, mkTestPlayer 1] := by
  constructor <;>
    norm_num [State.doublePlayMove, State.fieldersChoiceMove,
      State.removeHighestBase, State.advance, State.advStep, State.scoreRuns,
      stFirstOnly, State.start, rng0, Rng.genQ, fix, Player.baserunning, pow1,
      Bases.runners, Bases.setNth, Bases.empty] <;>
    decide

/-- Helper for C3: `advance(0, 1)` on bases whose third slot is empty keeps
the same runners (in base order) and scores nobody, whatever the extra-base
rolls decide. -/
theorem advance01_third_empty (powf : ℚ → ℚ → ℚ) (sc : Score)
    (pos : AwayHome (Fin 9)) (b0 b1 : Option Player) (rng : Rng) :
    (State.advance powf 0 1 ⟨sc, ⟨b0, b1, none⟩, pos⟩ rng).1.bases.runners =
      Bases.runners ⟨b0, b1, none⟩
    ∧ (State.advance powf 0 1 ⟨sc, ⟨b0, b1, none⟩, pos⟩ rng).1.score = sc := by
  cases b0 with
  | none =>
    cases b1 with
    | none =>
      simp [State.advance, State.advStep, Bases.empty, State.scoreRuns]
    | some q =>
      by_cases h1 : rng.genQ.1 < fix (Player.baserunning powf q) 0 2⁻¹ <;>
        simp [State.advance, State.advStep, Bases.setNth, Bases.empty,
          State.scoreRuns, Bases.runners, h1]
  | some p =>
    cases b1 with
    | none =>
      by_cases h1 : rng.genQ.1 < fix (Player.baserunning powf p) 0 2⁻¹ <;>
        simp [State.advance, State.advStep, Bases.setNth, Bases.empty,
          State.scoreRuns, Bases.runners, h1]
    | some q =>
      by_cases h1 : rng.genQ.1 < fix (Player.baserunning powf q) 0 2⁻¹
      · by_cases h2 :
          rng.genQ.2.genQ.1 < fix (Player.baserunning powf p) 0 2⁻¹ <;>
          simp [State.advance, State.advStep, Bases.setNth, Bases.empty,
            State.scoreRuns, Bases.runners, h1, h2]
      · simp [State.advance, State.advStep, Bases.setNth, Bases.empty,
          State.scoreRuns, Bases.runners, h1]

/-- Helper for C3: `advance(1, 1)` on bases whose third slot is empty is the
deterministic one-base shift; no roll occurs, no run scores, the generator
is untouched. -/
theorem advance11_third_empty (powf : ℚ → ℚ → ℚ) (sc : Score)
    (pos : AwayHome (Fin 9)) (b0 b1 : Option Player) (rng : Rng) :
    State.advance powf 1 1 ⟨sc, ⟨b0, b1, none⟩, pos⟩ rng =
      (⟨sc, ⟨none, b0, b1⟩, pos⟩, rng) := by
  cases b0 <;> cases b1 <;>
    simp [State.advance, State.advStep, Bases.setNth, Bases.empty,
      State.scoreRuns]

/-- C3 amended: the double play and the fielder's choice clear the occupant
of third base (the base slot closest to home) whether or not it is occupied;
when third base is empty no runner is removed.  The remaining runners are
exactly the former occupants of first and second (the batter joining them on
a fielder's choice), and no run scores on either play. -/
theorem c3_amended_third_slot_cleared (powf : ℚ → ℚ → ℚ) (batter : Player)
    (st : State) (rng : Rng) :
    (State.doublePlayMove powf st rng).1.bases.runners =
      Bases.runners
        { first := st.bases.first, second := st.bases.second, third := none }
  ∧ (State.doublePlayMove powf st rng).1.score = st.score
  ∧ (State.fieldersChoiceMove powf batter st rng).1.bases.runners =
      batter ::
        Bases.runners
          { first := st.bases.first, second := st.bases.second, third := none }
  ∧ (State.fieldersChoiceMove powf batter st rng).1.score = st.score := by
  rcases st with ⟨sc, ⟨b0, b1, b2⟩, pos⟩
  obtain ⟨hdp1, hdp2⟩ := advance01_third_empty powf sc pos b0 b1 rng
  have hfc := advance11_third_empty powf sc pos b0 b1 rng
  refine ⟨hdp1, hdp2, ?_, ?_⟩ <;>
    cases b0 <;> cases b1 <;>
    simp_all [State.fieldersChoiceMove, State.removeHighestBase,
      Bases.runners]

/-- Helper for C6: with `max = min` the extra-base roll can never fire, so
one source step agrees with one spec step whenever the incoming `in_front`
is `min`, and `in_front` stays `min`. -/
theorem advStep_eq_rule_of_eq (powf : ℚ → ℚ → ℚ) (mn i : ℕ)
    (slot : Option Player) (acc : AdvAcc) (hacc : acc.in_front = mn) :
    State.advStep powf mn i slot acc = advanceRuleStep powf mn mn acc (i, slot)
    ∧ (State.advStep powf mn i slot acc).in_front = mn := by
  rcases acc with ⟨infr, runs, nb, rng⟩
  rcases hacc
  cases slot with
  | none => exact ⟨rfl, rfl⟩
  | some runner =>
    constructor <;> simp [State.advStep, advanceRuleStep] <;> split_ifs <;> rfl

/-- Helper for C6: with `max = min + 1` the source step and the spec step are
the same function. -/
theorem advStep_eq_rule_of_succ (powf : ℚ → ℚ → ℚ) (mn i : ℕ)
    (slot : Option Player) (acc : AdvAcc) :
    State.advStep powf mn i slot acc =
      advanceRuleStep powf mn (mn + 1) acc (i, slot) := by
  cases slot <;> rfl

/-- C6 counterexample: at (min, max) = (0, 2), min ≤ max, a triggered runner
on first advances to second (by min + 1 = 1 base), not to third (by max = 2)
as the claim states; the source `advance` and the spec's advance rule
disagree at this input. -/
theorem c6_counterexample :
    (State.advance pow1 0 2 stFirstOnly rng0).1.bases.second =
      some (mkTestPlayer 1)
  ∧ (State.advance pow1 0 2 stFirstOnly rng0).1.bases.third = none
  ∧ (State.advanceRule pow1 0 2 stFirstOnly rng0).1.bases.third =
      some (mkTestPlayer 1)
  ∧ (State.advance pow1 0 2 stFirstOnly rng0).1 ≠
      (State.advanceRule pow1 0 2 stFirstOnly rng0).1 := by
  refine ⟨?_, ?_, ?_, ?_⟩ <;>
    norm_num [State.advance, State.advanceRule, advanceRuleStep,
      State.advStep, State.scoreRuns, stFirstOnly, State.start, rng0,
      Rng.genQ, fix, Player.baserunning, pow1, Bases.setNth, Bases.empty] <;>
    decide

/-- C6 amended: the advance rule as claimed holds only under the additional
proviso `max ≤ min + 1` (true at every call site: (0,1), (1,1), (1,2),
(2,3), (3,3)); under it the source `advance` coincides with the spec's
far-to-near advance rule, including generator consumption — in general a
triggered runner advances by `min + 1` bases, which then equals `max`. -/
theorem c6_advance_matches_rule (powf : ℚ → ℚ → ℚ) (mn mx : ℕ)
    (h1 : mn ≤ mx) (h2 : mx ≤ mn + 1) (st : State) (rng : Rng) :
    State.advance powf mn mx st rng = State.advanceRule powf mn mx st rng := by
  have hcase : mx = mn ∨ mx = mn + 1 := by omega
  rcases hcase with hc | hc
  · subst hc
    simp only [State.advance, State.advanceRule, List.foldl]
    obtain ⟨e1, f1⟩ := advStep_eq_rule_of_eq powf mx 2 st.bases.third
      { in_front := mx, runs := 0, new_bases := Bases.empty, rng := rng } rfl
    rw [e1] at f1 ⊢
    obtain ⟨e2, f2⟩ := advStep_eq_rule_of_eq powf mx 1 st.bases.second _ f1
    rw [e2] at f2 ⊢
    obtain ⟨e3, _⟩ := advStep_eq_rule_of_eq powf mx 0 st.bases.first _ f2
    rw [e3]
  · subst hc
    simp only [State.advance, State.advanceRule, List.foldl,
      advStep_eq_rule_of_succ]

/-- Witness for C6 at the Single call site (min, max) = (1, 2). -/
theorem c6_witness :
    State.advance pow1 1 2 stFirstOnly rng0 =
      State.advanceRule pow1 1 2 stFirstOnly rng0 :=
  c6_advance_matches_rule pow1 1 2 (by decide) (by decide) stFirstOnly rng0

section HistoryLemmas

variable {T : Type} [DecidableEq T]

omit [DecidableEq T] in
/-- Helper for C7: folding `eraseKey` over a key list filters all those keys
out at once. -/
theorem foldl_eraseKey (ks : List ℕ) (l : List (ℕ × T)) :
    ks.foldl History.eraseKey l = l.filter fun kv => decide (kv.1 ∉ ks) := by
  induction ks generalizing l with
  | nil => simp
  | cons k ks ih =>
    simp only [List.foldl_cons]
    rw [ih, History.eraseKey, List.filter_filter]
    refine List.filter_congr fun kv _ => ?_
    by_cases h1 : kv.1 = k <;> by_cases h2 : kv.1 ∈ ks <;> simp [h1, h2]

/-- Helper for C7: every key the removal pass collects is a key of the
history. -/
theorem removeList_subset_keys (k : ℕ) :
    ∀ (prev : Option T) (l : List (ℕ × T)),
      k ∈ History.removeList prev l → k ∈ l.map Prod.fst := by
  intro prev l
  induction l generalizing prev with
  | nil => simp [History.removeList]
  | cons hd rest ih =>
    rcases hd with ⟨k2, v⟩
    by_cases hp : prev = some v
    · rw [History.removeList, if_pos hp]
      intro hmem
      rcases List.mem_cons.mp hmem with rfl | hk
      · simp
      · simp only [List.map_cons, List.mem_cons]
        exact Or.inr (ih prev hk)
    · rw [History.removeList, if_neg hp]
      intro hk
      simp only [List.map_cons, List.mem_cons]
      exact Or.inr (ih (some v) hk)

/-- Helper for C7: on distinct keys, removing the collected keys is exactly
the keep-first-of-each-run scan. -/
theorem filter_removeList_eq_keepFirst :
    ∀ (prev : Option T) (l : List (ℕ × T)),
      (l.map Prod.fst).Nodup →
      (l.filter fun kv => decide (kv.1 ∉ History.removeList prev l)) =
        History.dedupKeepFirst prev l := by
  intro prev l
  induction l generalizing prev with
  | nil => intro _; rfl
  | cons hd rest ih =>
    rcases hd with ⟨k, v⟩
    intro hnd
    rw [List.map_cons, List.nodup_cons] at hnd
    obtain ⟨hk, hrest⟩ := hnd
    by_cases hp : prev = some v
    · rw [History.removeList, if_pos hp, History.dedupKeepFirst, if_pos hp]
      rw [List.filter_cons]
      have hhead : (decide (k ∉ k :: History.removeList prev rest)) = false := by
        simp
      rw [hhead]
      simp only [Bool.false_eq_true, if_neg]
      rw [← ih prev hrest]
      refine List.filter_congr fun kv hkv => ?_
      have hne : kv.1 ≠ k := by
        intro he
        exact hk (he ▸ (List.mem_map.mpr ⟨kv, hkv, rfl⟩))
      by_cases h2 : kv.1 ∈ History.removeList prev rest <;> simp [h2, hne]
    · rw [History.removeList, if_neg hp, History.dedupKeepFirst, if_neg hp]
      rw [List.filter_cons]
      have hhead : (decide (k ∉ History.removeList (some v) rest)) = true := by
        simp only [decide_eq_true_eq]
        intro hmem
        exact hk (removeList_subset_keys k (some v) rest hmem)
      rw [hhead]
      simp only [if_pos]
      rw [ih (some v) hrest]

/-- Helper for C7: on distinct keys the source `dedup` is the keep-first
scan. -/
theorem dedup_eq_keepFirst (l : List (ℕ × T))
    (h : (l.map Prod.fst).Nodup) :
    History.dedup l = History.dedupKeepFirst none l := by
  rw [History.dedup, foldl_eraseKey, filter_removeList_eq_keepFirst none l h]

/-- Helper for C7: the keep-first scan yields a sublist. -/
theorem keepFirst_sublist :
    ∀ (prev : Option T) (l : List (ℕ × T)),
      List.Sublist (History.dedupKeepFirst prev l) l := by
  intro prev l
  induction l generalizing prev with
  | nil => exact List.Sublist.refl _
  | cons hd rest ih =>
    rcases hd with ⟨k, v⟩
    by_cases hp : prev = some v
    · rw [History.dedupKeepFirst, if_pos hp]
      exact (ih prev).trans (List.sublist_cons_self _ _)
    · rw [History.dedupKeepFirst, if_neg hp]
      exact (ih (some v)).cons₂ _

/-- Helper for C7: the keep-first scan is idempotent. -/
theorem keepFirst_idem :
    ∀ (prev : Option T) (l : List (ℕ × T)),
      History.dedupKeepFirst prev (History.dedupKeepFirst prev l) =
        History.dedupKeepFirst prev l := by
  intro prev l
  induction l generalizing prev with
  | nil => rfl
  | cons hd rest ih =>
    rcases hd with ⟨k, v⟩
    by_cases hp : prev = some v
    · rw [History.dedupKeepFirst, if_pos hp, ih prev]
    · rw [History.dedupKeepFirst, if_neg hp, History.dedupKeepFirst,
        if_neg hp, ih (some v)]

/-- Helper for C7: a history whose consecutive values differ (and whose
first value differs from `prev`) is untouched by the keep-first scan. -/
theorem keepFirst_of_chain :
    ∀ (prev : Option T) (l : List (ℕ × T)),
      (∀ kv ∈ l.head?, prev ≠ some kv.2) →
      l.Chain' (fun a b => a.2 ≠ b.2) →
      History.dedupKeepFirst prev l = l := by
  intro prev l
  induction l generalizing prev with
  | nil => intro _ _; rfl
  | cons hd rest ih =>
    rcases hd with ⟨k, v⟩
    intro hhead hchain
    have hp : prev ≠ some v := hhead (k, v) rfl
    rw [History.dedupKeepFirst, if_neg hp]
    rw [List.chain'_cons'] at hchain
    refine congrArg (List.cons (k, v)) (ih (some v) ?_ hchain.2)
    intro kv hkv he
    exact hchain.1 kv hkv (Option.some.injEq _ _ ▸ he :)

end HistoryLemmas

/-- C7: on a history (distinct, ordered keys), `dedup` removes exactly the
records equal to the previously retained record — it is the
keep-first-of-each-run scan — is idempotent, leaves all-distinct-valued
histories unchanged, is a no-op on empty and singleton histories, and maps
the quoted example to exactly its collapsed form. -/
theorem c7_dedup_spec {T : Type} [DecidableEq T] :
    (∀ l : List (ℕ × T), (l.map Prod.fst).Nodup →
      History.dedup l = History.dedupKeepFirst none l)
  ∧ (∀ l : List (ℕ × T), (l.map Prod.fst).Nodup →
      History.dedup (History.dedup l) = History.dedup l)
  ∧ (∀ l : List (ℕ × T), (l.map Prod.fst).Nodup →
      (l.map Prod.snd).Nodup → History.dedup l = l)
  ∧ History.dedup ([] : List (ℕ × T)) = []
  ∧ (∀ kv : ℕ × T, History.dedup [kv] = [kv])
  ∧ (∀ a b c : T, a ≠ b → b ≠ c →
      History.dedup [(1, a), (2, a), (3, b), (4, b), (5, c)] =
        [(1, a), (3, b), (5, c)]) := by
  refine ⟨dedup_eq_keepFirst, ?_, ?_, rfl, ?_, ?_⟩
  · intro l h
    have h2 : ((History.dedupKeepFirst (none : Option T) l).map
        Prod.fst).Nodup :=
      h.sublist (List.Sublist.map Prod.fst (keepFirst_sublist none l))
    rw [dedup_eq_keepFirst l h, dedup_eq_keepFirst _ h2, keepFirst_idem]
  · intro l hk hv
    rw [dedup_eq_keepFirst l hk]
    refine keepFirst_of_chain none l (by simp) ?_
    have hpw : l.Pairwise fun a b => a.2 ≠ b.2 :=
      List.pairwise_map.mp hv
    exact hpw.chain'
  · intro kv
    rcases kv with ⟨k, v⟩
    simp [History.dedup, History.removeList]
  · intro a b c hab hbc
    simp [History.dedup, History.removeList, History.eraseKey, hab, hbc,
      Ne.symm hab, Ne.symm hbc]

/-- Witness for C7 at the quoted example over natural-number values. -/
theorem c7_witness :
    History.dedup [((1 : ℕ), (0 : ℕ)), (2, 0), (3, 1), (4, 1), (5, 2)] =
      [(1, 0), (3, 1), (5, 2)] :=
  c7_dedup_spec.2.2.2.2.2 0 1 2 (by decide) (by decide)

/-- Helper for C8: a parse error anywhere in a file's line stream makes the
ingestion of that file fail. -/
theorem ingest_error_of_mem {E : Type} (db : Database)
    (lines : List (Except E InputLine))
    (h : ∃ l ∈ lines, ∃ e : E, l = .error e) :
    ∃ e : E, Database.ingest db lines = .error e := by
  induction lines generalizing db with
  | nil => simp at h
  | cons hd rest ih =>
    cases hd with
    | error e => exact ⟨e, rfl⟩
    | ok line =>
      rcases h with ⟨l, hmem, e, rfl⟩
      rcases List.mem_cons.mp hmem with heq | hl
      · cases heq
      · exact ih (db.applyLine line) ⟨.error e, hl, e, rfl⟩

/-- Helper for C8: a file of well-parsed lines ingests without error. -/
theorem ingest_ok_of_all_ok {E : Type} (db : Database)
    (lines : List (Except E InputLine))
    (h : ∀ l ∈ lines, ∃ line, l = .ok line) :
    ∃ db2, Database.ingest db lines = .ok db2 := by
  induction lines generalizing db with
  | nil => exact ⟨db, rfl⟩
  | cons hd rest ih =>
    obtain ⟨line, rfl⟩ := h hd (List.mem_cons_self hd rest)
    exact ih (db.applyLine line) fun l hl => h l (List.mem_cons_of_mem _ hl)

/-- Helper for C8: a parse error in any file makes the whole multi-file
ingestion fail. -/
theorem loadGo_error_of_mem {E : Type} (db : Database)
    (files : List (List (Except E InputLine)))
    (h : ∃ f ∈ files, ∃ l ∈ f, ∃ e : E, l = .error e) :
    ∃ e : E, Database.loadGo db files = .error e := by
  induction files generalizing db with
  | nil => simp at h
  | cons f fs ih =>
    rcases h with ⟨f2, hmem, hin⟩
    rcases List.mem_cons.mp hmem with rfl | hfs
    · obtain ⟨e, he⟩ := ingest_error_of_mem db f2 hin
      exact ⟨e, by rw [Database.loadGo, he]⟩
    · cases hi : Database.ingest db f with
      | error e => exact ⟨e, by rw [Database.loadGo, hi]⟩
      | ok db2 =>
        obtain ⟨e, he⟩ := ih db2 ⟨f2, hfs, hin⟩
        exact ⟨e, by rw [Database.loadGo, hi]; exact he⟩

/-- Helper for C8: well-parsed files load without error. -/
theorem loadGo_ok_of_all_ok {E : Type} (db : Database)
    (files : List (List (Except E InputLine)))
    (h : ∀ f ∈ files, ∀ l ∈ f, ∃ line, l = .ok line) :
    ∃ db2, Database.loadGo db files = .ok db2 := by
  induction files generalizing db with
  | nil => exact ⟨db, rfl⟩
  | cons f fs ih =>
    obtain ⟨db2, hdb2⟩ :=
      ingest_ok_of_all_ok db f (h f (List.mem_cons_self f fs))
    obtain ⟨db3, hdb3⟩ := ih db2 fun f2 hf2 => h f2 (List.mem_cons_of_mem _ hf2)
    exact ⟨db3, by rw [Database.loadGo, hdb2]; exact hdb3⟩

/-- C8: during ingestion any record with a tag other than the teams batch and
players batch tags is skipped without error and without effect, while a
record that fails to parse makes the entire load return the fatal error —
well-parsed inputs always load, one malformed line fails the whole load. -/
theorem c8_load_error_handling :
    (∀ (E : Type) (files : List (List (Except E InputLine))),
      (∃ f ∈ files, ∃ l ∈ f, ∃ e : E, l = .error e) →
      ∃ e : E, Database.load files = .error e)
  ∧ (∀ (E : Type) (files : List (List (Except E InputLine))),
      (∀ f ∈ files, ∀ l ∈ f, ∃ line, l = .ok line) →
      ∃ db, Database.load files = .ok db)
  ∧ (∀ (E : Type) (db : Database) (rest : List (Except E InputLine)),
      Database.ingest db (.ok InputLine.globalEvents :: rest) =
        Database.ingest db rest
      ∧ Database.ingest db (.ok InputLine.offseasonSetup :: rest) =
        Database.ingest db rest) := by
  refine ⟨?_, ?_, ?_⟩
  · intro E files h
    obtain ⟨e, he⟩ := loadGo_error_of_mem Database.empty files h
    exact ⟨e, by rw [Database.load, he]⟩
  · intro E files h
    obtain ⟨db, hdb⟩ := loadGo_ok_of_all_ok Database.empty files h
    exact ⟨db.dedupAll, by rw [Database.load, hdb]⟩
  · intro E db rest
    exact ⟨rfl, rfl⟩

/-- Witness for C8: a single malformed line fails the whole load. -/
theorem c8_witness :
    ∃ e : Unit,
      Database.load [[(Except.error () : Except Unit InputLine)]] =
        .error e :=
  c8_load_error_handling.1 Unit _
    ⟨[Except.error ()], by simp, Except.error (), by simp, (), rfl⟩

/-- Helper for C9: the completion predicate is exactly ninth-or-later inning
with unequal scores — the explicit walk-off disjunct is redundant. -/
theorem is_complete_iff_ne (st : State) :
    st.is_complete = true ↔
      (8 ≤ st.score.inning ∧ st.score.score.away ≠ st.score.score.home) := by
  rcases st with ⟨⟨inning, bottom, ⟨a, h⟩⟩, b, pos⟩
  cases bottom <;>
    simp only [State.is_complete, State.is_top, Bool.not_false, Bool.not_true,
      Bool.false_and, Bool.true_and] <;>
    split_ifs <;> simp_all <;> omega

/-- Helper for C9: a complete state has unequal scores. -/
theorem complete_scores_ne (st : State) (h : st.is_complete = true) :
    st.score.score.away ≠ st.score.score.home :=
  ((is_complete_iff_ne st).mp h).2

/-- Helper for C9: whenever the loop nest returns a final score, that score
has unequal run totals, because the only exit is guarded by
`is_complete`. -/
theorem simGo_ne_of_some (powf : ℚ → ℚ → ℚ)
    (L : AwayHome (Fin 9 → Player)) (P : AwayHome Player) :
    ∀ (fuel outs balls strikes : ℕ) (st : State) (rng : Rng) (sc : Score),
      simGo powf L P fuel outs balls strikes st rng = some sc →
      sc.score.away ≠ sc.score.home := by
  intro fuel
  induction fuel with
  | zero =>
    intro outs balls strikes st rng sc h
    simp [simGo] at h
  | succ fuel ih =>
    intro outs balls strikes st rng sc h
    rw [simGo] at h
    rcases hps : Pitch.simulate powf (st.fielding P) (st.batter L)
      (st.fielding L) rng with ⟨pitch, rng2⟩
    rw [hps] at h
    cases pitch <;>
      simp only at h <;>
      split_ifs at h <;>
      first
        | exact ih _ _ _ _ _ _ h
        | (injection h with h2; subst h2; exact complete_scores_ne _ (by assumption))

/-- C9: the completion predicate is equivalent to the simpler
`inning ≥ 8 ∧ scores unequal`, and consequently every score `simulate`
returns has unequal away and home totals — the simulation never ends in a
tie. -/
theorem c9_never_ties :
    (∀ st : State, st.is_complete = true ↔
      (8 ≤ st.score.inning ∧ st.score.score.away ≠ st.score.score.home))
  ∧ (∀ (powf : ℚ → ℚ → ℚ) (rngAlg : ℕ → Rng) (p : Playable)
      (seed fuel : ℕ) (sc : Score),
      Playable.simulate powf rngAlg p seed fuel = some sc →
      sc.score.away ≠ sc.score.home) := by
  refine ⟨is_complete_iff_ne, ?_⟩
  intro powf rngAlg p seed fuel sc h
  rw [Playable.simulate] at h
  simp only [show State.start.is_complete = false from rfl,
    Bool.false_eq_true, if_false] at h
  exact simGo_ne_of_some powf p.lineups p.pitchers fuel 0 0 0 State.start _ sc h

/-- Witness for C9 at a concrete decided ninth-inning state. -/
theorem c9_witness : stHomeAhead9.is_complete = true :=
  (c9_never_ties.1 stHomeAhead9).mpr ⟨by decide, by decide⟩

end Metasim
